import Mathlib

/-!
Shallow embedding of the url-to-llm crawler (src/crawler/src/crawler.py,
detector.py, storage.py, manifest.py): URL frontier with politeness gate,
change detector, storage adapter, crawl orchestration loop and llm.txt
manifest generator, together with theorems checking the specification's
claims about them.

Python strings are modelled as lists of characters (`PyStr`); Python dicts
keyed by strings as association lists; timestamps (`datetime.utcnow()`)
as rationals (seconds).  Fallible awaited calls are modelled with `Except`
or explicit failure-injection flags in the crawl environment.
-/

set_option maxRecDepth 20000

namespace UrlToLlm

/-- Python `str` modelled as a list of characters (code points). -/
abbrev PyStr := List Char

/-- Python `str.lower` on one character (ASCII, the range exercised by the
crawler): uppercase A-Z maps to the character 32 code points later,
everything else is fixed. -/
def pyCharLower (c : Char) : Char :=
  if 65 ≤ c.toNat ∧ c.toNat ≤ 90 then Char.ofNat (c.toNat + 32) else c

/-- Python `str.lower`. -/
def pyLower (s : PyStr) : PyStr := s.map pyCharLower

/-- Python `str.rstrip(c)`: remove every trailing occurrence of `c`. -/
def pyRstrip (c : Char) (s : PyStr) : PyStr := s.rdropWhile (· == c)

/-- Python `str.strip(c)`: remove every leading and trailing occurrence of `c`. -/
def pyStrip (c : Char) (s : PyStr) : PyStr :=
  (s.dropWhile (· == c)).rdropWhile (· == c)

/-- Python `d.get(k)` for a string-keyed dict modelled as an association list. -/
def dictGet (d : List (PyStr × PyStr)) (k : PyStr) : Option PyStr :=
  (d.find? (fun kv => kv.1 == k)).map (·.2)

/-- Python truthiness of an optional string: `None` and `""` are falsy. -/
def truthy : Option PyStr → Bool
  | none => false
  | some s => !s.isEmpty

/-- URLFrontier._normalize_url (crawler.py:86-94): `url.split('#')[0]`
(prefix before the first `#`), then `rstrip('/')`, then `lower()`. -/
def _normalize_url (url : PyStr) : PyStr :=
  pyLower (pyRstrip '/' (url.takeWhile (fun c => c != '#')))

/-! Character-level facts about `pyCharLower` used for the idempotence of
`_normalize_url`. -/

theorem toNat_ofNat_of_lc {n : Nat} (h1 : 97 ≤ n) (h2 : n ≤ 122) :
    (Char.ofNat n).toNat = n := by
  interval_cases n <;> decide

theorem pyCharLower_range (c : Char) :
    pyCharLower c = c ∨ (97 ≤ (pyCharLower c).toNat ∧ (pyCharLower c).toNat ≤ 122) := by
  unfold pyCharLower
  split
  · rename_i h
    right
    rw [toNat_ofNat_of_lc (by omega) (by omega)]
    omega
  · left; rfl

theorem pyCharLower_idem (c : Char) : pyCharLower (pyCharLower c) = pyCharLower c := by
  rcases pyCharLower_range c with h | h
  · rw [h, h]
  · set x := pyCharLower c with hx
    unfold pyCharLower
    rw [if_neg]
    omega

theorem pyCharLower_eq_small_iff {c d : Char} (hd : d.toNat < 65) :
    pyCharLower c = d ↔ c = d := by
  constructor
  · intro h
    rcases pyCharLower_range c with h' | h'
    · rw [← h', h]
    · rw [h] at h'
      omega
  · intro h
    subst h
    unfold pyCharLower
    rw [if_neg]
    omega

/-! List-level helpers for the idempotence proof. -/

theorem rdropWhile_map {α β : Type} (f : α → β) (p : β → Bool) (l : List α) :
    (l.map f).rdropWhile p = (l.rdropWhile (fun a => p (f a))).map f := by
  simp only [List.rdropWhile]
  rw [← List.map_reverse, List.dropWhile_map, List.map_reverse]
  rfl

theorem pyCharLower_slash_comm (c : Char) :
    ((pyCharLower c) == '/') = (c == '/') := by
  by_cases h : c = '/'
  · subst h; decide
  · have h2 : pyCharLower c ≠ '/' := by
      intro hc
      exact h ((pyCharLower_eq_small_iff (by decide)).mp hc)
    simp [h, h2]

theorem mem_normalize_ne_hash {c : Char} {u : PyStr} (hc : c ∈ _normalize_url u) :
    c ≠ '#' := by
  unfold _normalize_url pyLower at hc
  rcases List.mem_map.mp hc with ⟨b, hb, rfl⟩
  have hbu : b ∈ u.takeWhile (fun c => c != '#') :=
    ( List.rdropWhile_prefix _ _).subset hb
  have hpb := List.mem_takeWhile_imp hbu
  intro h
  have hb' : b = '#' := (pyCharLower_eq_small_iff (by decide)).mp h
  subst hb'
  simp at hpb

/-- C6 counterexample: the input with a trailing space normalizes to
a string still ending in `/ `, which differs from the normal form of
the slash-free input. -/
theorem c6_counterexample :
    _normalize_url "https://EX.com/a/ ".data ≠ _normalize_url "https://ex.com/a".data := by
  decide

/-- C6 (amended): URL normalization is idempotent, and the amended concrete
inputs (without the trailing space) normalize identically:
normalize "https://EX.com/a/" = normalize "https://ex.com/a". -/
theorem c6_normalize_idempotent :
    (∀ u : PyStr, _normalize_url (_normalize_url u) = _normalize_url u) ∧
      _normalize_url "https://EX.com/a/".data = _normalize_url "https://ex.com/a".data := by
  constructor
  · intro u
    set y := _normalize_url u with hy
    have hstep1 : y.takeWhile (fun c => c != '#') = y := by
      rw [List.takeWhile_eq_self_iff]
      intro x hx
      rw [hy] at hx
      simpa using mem_normalize_ne_hash hx
    have hstep2 : pyRstrip '/' y = y := by
      rw [hy]
      unfold _normalize_url pyLower pyRstrip
      rw [rdropWhile_map]
      have hfun : (fun a => (pyCharLower a) == '/') = (fun a => a == '/') := by
        funext a
        exact pyCharLower_slash_comm a
      rw [hfun, List.rdropWhile_idempotent]
    have hstep3 : pyLower y = y := by
      rw [hy]
      unfold _normalize_url pyLower
      rw [List.map_map]
      congr 1
      funext a
      exact pyCharLower_idem a
    unfold _normalize_url
    rw [hstep1, hstep2, hstep3]
  · decide

/-! SHA-256 (hashlib.sha256), executable over byte lists, used by
StorageAdapter.compute_content_hash and the manifest generator. -/

/-- Two to the thirty-second power, the word modulus of SHA-256. -/
def M32 : Nat := 4294967296

/-- Rotate a 32-bit word right by n bits. -/
def ror32 (x n : Nat) : Nat := ((x >>> n) ||| (x <<< (32 - n))) % M32

def shaCh (x y z : Nat) : Nat := (x &&& y) ^^^ ((x ^^^ 4294967295) &&& z)

def shaMaj (x y z : Nat) : Nat := (x &&& y) ^^^ (x &&& z) ^^^ (y &&& z)

def shaS0 (x : Nat) : Nat := (ror32 x 2) ^^^ (ror32 x 13) ^^^ (ror32 x 22)

def shaS1 (x : Nat) : Nat := (ror32 x 6) ^^^ (ror32 x 11) ^^^ (ror32 x 25)

def shaG0 (x : Nat) : Nat := (ror32 x 7) ^^^ (ror32 x 18) ^^^ (x >>> 3)

def shaG1 (x : Nat) : Nat := (ror32 x 17) ^^^ (ror32 x 19) ^^^ (x >>> 10)

/-- The 64 SHA-256 round constants. -/
def shaK : List Nat :=
  [1116352408, 1899447441, 3049323471, 3921009573, 961987163, 1508970993,
   2453635748, 2870763221, 3624381080, 310598401, 607225278, 1426881987,
   1925078388, 2162078206, 2614888103, 3248222580, 3835390401, 4022224774,
   264347078, 604807628, 770255983, 1249150122, 1555081692, 1996064986,
   2554220882, 2821834349, 2952996808, 3210313671, 3336571891, 3584528711,
   113926993, 338241895, 666307205, 773529912, 1294757372, 1396182291,
   1695183700, 1986661051, 2177026350, 2456956037, 2730485921, 2820302411,
   3259730800, 3345764771, 3516065817, 3600352804, 4094571909, 275423344,
   430227734, 506948616, 659060556, 883997877, 958139571, 1322822218,
   1537002063, 1747873779, 1955562222, 2024104815, 2227730452, 2361852424,
   2428436474, 2756734187, 3204031479, 3329325298]

/-- The eight working variables of SHA-256. -/
structure Hash8 where
  a : Nat
  b : Nat
  c : Nat
  d : Nat
  e : Nat
  f : Nat
  g : Nat
  h : Nat

/-- The SHA-256 initial hash value. -/
def shaH0 : Hash8 :=
  ⟨1779033703, 3144134277, 1013904242, 2773480762, 1359893119, 2600822924, 528734635, 1541459225⟩

/-- One SHA-256 round on the working variables, given (w, k). -/
def shaStep (st : Hash8) (wk : Nat × Nat) : Hash8 :=
  let t1 := (st.h + shaS1 st.e + shaCh st.e st.f st.g + wk.2 + wk.1) % M32
  let t2 := (shaS0 st.a + shaMaj st.a st.b st.c) % M32
  ⟨(t1 + t2) % M32, st.a, st.b, st.c, (st.d + t1) % M32, st.e, st.f, st.g⟩

/-- Extend a 16-word block to the 64-word message schedule (n = 48 steps). -/
def extendSchedule : Nat → List Nat → List Nat
  | 0, w => w
  | n+1, w =>
    let w' := extendSchedule n w
    w' ++ [(shaG1 (w'.getD (w'.length - 2) 0) + w'.getD (w'.length - 7) 0 +
            shaG0 (w'.getD (w'.length - 15) 0) + w'.getD (w'.length - 16) 0) % M32]

/-- Compress one 16-word block into the running hash. -/
def shaCompress (h0 : Hash8) (block : List Nat) : Hash8 :=
  let w := extendSchedule 48 block
  let st := (w.zip shaK).foldl shaStep h0
  ⟨(h0.a + st.a) % M32, (h0.b + st.b) % M32, (h0.c + st.c) % M32, (h0.d + st.d) % M32,
   (h0.e + st.e) % M32, (h0.f + st.f) % M32, (h0.g + st.g) % M32, (h0.h + st.h) % M32⟩

/-- Fold the compression function over n 16-word blocks. -/
def shaBlocks : Nat → Hash8 → List Nat → Hash8
  | 0, h, _ => h
  | n+1, h, ws => shaBlocks n (shaCompress h (ws.take 16)) (ws.drop 16)

/-- SHA-256 padding: append 0x80, zeros to 56 mod 64, then the 64-bit
big-endian bit length. -/
def shaPad (msg : List Nat) : List Nat :=
  let len := msg.length
  let zeros := (120 - ((len + 1) % 64)) % 64
  let bl := len * 8
  msg ++ [128] ++ List.replicate zeros 0 ++
    [(bl >>> 56) &&& 255, (bl >>> 48) &&& 255, (bl >>> 40) &&& 255, (bl >>> 32) &&& 255,
     (bl >>> 24) &&& 255, (bl >>> 16) &&& 255, (bl >>> 8) &&& 255, bl &&& 255]

/-- Group bytes into big-endian 32-bit words. -/
def bytesToWords : List Nat → List Nat
  | a :: b :: c :: d :: rest => (((a * 256 + b) * 256 + c) * 256 + d) :: bytesToWords rest
  | _ => []

/-- Big-endian bytes of a 32-bit word. -/
def wordBytes (x : Nat) : List Nat :=
  [(x >>> 24) &&& 255, (x >>> 16) &&& 255, (x >>> 8) &&& 255, x &&& 255]

/-- SHA-256 of a byte list, as 32 bytes. -/
def sha256Bytes (msg : List Nat) : List Nat :=
  let ws := bytesToWords (shaPad msg)
  let h := shaBlocks (ws.length / 16) shaH0 ws
  ([h.a, h.b, h.c, h.d, h.e, h.f, h.g, h.h].map wordBytes).flatten

def hexDigit (n : Nat) : Char := "0123456789abcdef".data.getD n '0'

def byteHex (b : Nat) : List Char := [hexDigit (b / 16), hexDigit (b % 16)]

/-- Lowercase hex rendering of a byte list (hexdigest). -/
def toHexStr (bs : List Nat) : PyStr := (bs.map byteHex).flatten

/-- UTF-8 encoding of one character. -/
def utf8Char (c : Char) : List Nat :=
  let n := c.toNat
  if n < 128 then [n]
  else if n < 2048 then [192 + (n >>> 6), 128 + (n &&& 63)]
  else if n < 65536 then [224 + (n >>> 12), 128 + ((n >>> 6) &&& 63), 128 + (n &&& 63)]
  else [240 + (n >>> 18), 128 + ((n >>> 12) &&& 63), 128 + ((n >>> 6) &&& 63), 128 + (n &&& 63)]

/-- Python s.encode(utf-8). -/
def utf8Encode (s : PyStr) : List Nat := (s.map utf8Char).flatten

/-- hashlib.sha256(s.encode(utf-8)).hexdigest(). -/
def sha256hex (s : PyStr) : PyStr := toHexStr (sha256Bytes (utf8Encode s))

/-- Sanity check of the SHA-256 embedding against the FIPS 180 test vector. -/
theorem sha256hex_abc :
    sha256hex "abc".data =
      "ba7816bf8f01cfea414140de5dae2223b00361a396177a9cb410ff61f20015ad".data := by
  decide

namespace StorageAdapter

/-- StorageAdapter.compute_content_hash (storage.py:285-288):
sha256 hex digest of the UTF-8 encoded content. -/
def compute_content_hash (content : PyStr) : PyStr := sha256hex content

end StorageAdapter

/-! Change detector (detector.py).  ChangeDetector.normalize_html is
BeautifulSoup-based (parse, drop script/style/noscript/comments/dynamic
elements, extract text, collapse whitespace) and is kept abstract: every
definition below takes it as an explicit function argument, and the claims
hold for every choice of it. -/

/-- The columns of the pages row returned by StorageAdapter.get_page_info
(storage.py:152-165): content_hash, etag, last_modified (crawled_at is
unused by the detector). -/
structure PrevInfo where
  content_hash : PyStr
  etag : Option PyStr
  last_modified : Option PyStr

namespace ChangeDetector

/-- ChangeDetector.has_changed (detector.py:44-85), with normalize_html
abstracted as a function argument. -/
def has_changed (normalize_html : PyStr → PyStr) (current_headers : List (PyStr × PyStr))
    (current_content : PyStr) (previous_info : Option PrevInfo) : Bool × PyStr :=
  match previous_info with
  | none => (true, "new_page".data)
  | some prev =>
    let current_etag := pyStrip '"' ((dictGet current_headers "etag".data).getD [])
    if !current_etag.isEmpty && truthy prev.etag then
      if current_etag == pyStrip '"' (prev.etag.getD []) then (false, "etag_match".data)
      else (true, "etag_changed".data)
    else
      let current_last_modified := dictGet current_headers "last-modified".data
      if truthy current_last_modified && truthy prev.last_modified &&
          current_last_modified == prev.last_modified then
        (false, "last_modified_match".data)
      else
        let current_hash := StorageAdapter.compute_content_hash (normalize_html current_content)
        if current_hash == prev.content_hash then (false, "content_hash_match".data)
        else (true, "content_changed".data)

end ChangeDetector

/-- C1: with a previous record present, when the current ETag header is
nonempty after stripping surrounding double quotes and the previous etag is
a nonempty string, has_changed returns (false, "etag_match") exactly when
the two quote-stripped ETags are equal and (true, "etag_changed") otherwise,
for every content and every normalizer: the Last-Modified and content-hash
checks are never consulted in this case. -/
theorem c1_etag_precedence (nh : PyStr → PyStr) (headers : List (PyStr × PyStr))
    (content : PyStr) (p : PrevInfo) (pe : PyStr)
    (hce : pyStrip '"' ((dictGet headers "etag".data).getD []) ≠ [])
    (hpe : p.etag = some pe) (hpene : pe ≠ []) :
    ChangeDetector.has_changed nh headers content (some p) =
      (if pyStrip '"' ((dictGet headers "etag".data).getD []) = pyStrip '"' pe
       then (false, "etag_match".data) else (true, "etag_changed".data)) := by
  have h1 : (pyStrip '"' ((dictGet headers "etag".data).getD [])).isEmpty = false := by
    cases hc : pyStrip '"' ((dictGet headers "etag".data).getD []) with
    | nil => exact absurd hc hce
    | cons a as => rfl
  have ht : truthy (some pe) = true := by
    cases pe with
    | nil => exact absurd rfl hpene
    | cons c cs => rfl
  by_cases he : pyStrip '"' ((dictGet headers "etag".data).getD []) = pyStrip '"' pe
  · simp [ChangeDetector.has_changed, hpe, h1, ht, he]
    intro hcontra
    exact absurd hcontra (he ▸ hce)
  · simp [ChangeDetector.has_changed, hpe, h1, ht, he]

/-- C1 witness: a concrete run through the etag-match branch, obtained by
applying c1_etag_precedence at a concrete input. -/
theorem c1_etag_precedence_witness :
    ChangeDetector.has_changed (fun s => s) [("etag".data, ['"', 'x', '"'])] "body".data
        (some ⟨"h".data, some "x".data, none⟩) = (false, "etag_match".data) := by
  have h := c1_etag_precedence (fun s => s) [("etag".data, ['"', 'x', '"'])] "body".data
      ⟨"h".data, some "x".data, none⟩ "x".data (by decide) rfl (by decide)
  rw [h]
  decide

/-! URL frontier (crawler.py:41-98).  datetime.utcnow() timestamps are
modelled as rationals (seconds); urllib.parse.urlparse(url).netloc is
modelled for the absolute http(s) URLs the crawler handles as the text
between the first "://" and the next '/', '?' or '#'. -/

/-- The remainder of the string after the first "://" occurrence. -/
def afterScheme : PyStr → Option PyStr
  | ':' :: '/' :: '/' :: rest => some rest
  | _ :: rest => afterScheme rest
  | [] => none

/-- urllib.parse.urlparse(url).netloc, modelled for absolute http(s) URLs:
the text after "://" up to the next '/', '?' or '#'; empty otherwise. -/
def netloc (url : PyStr) : PyStr :=
  match afterScheme url with
  | some rest => rest.takeWhile (fun c => c != '/' && c != '?' && c != '#')
  | none => []

/-- urllib.parse.urlparse(url).path, modelled likewise: what follows the
netloc, up to the query or fragment. -/
def urlPath (url : PyStr) : PyStr :=
  match afterScheme url with
  | some rest =>
      (rest.dropWhile (fun c => c != '/' && c != '?' && c != '#')).takeWhile
        (fun c => c != '?' && c != '#')
  | none => url.takeWhile (fun c => c != '?' && c != '#')

/-- Lookup in a string-keyed association list (dict access). -/
def alookup {α : Type} (l : List (PyStr × α)) (k : PyStr) : Option α :=
  (l.find? (fun kv => kv.1 == k)).map (·.2)

/-- dict assignment d[k] = v on an association list. -/
def aset {α : Type} (l : List (PyStr × α)) (k : PyStr) (v : α) : List (PyStr × α) :=
  if (l.find? (fun kv => kv.1 == k)).isSome then
    l.map (fun kv => if kv.1 == k then (kv.1, v) else kv)
  else l ++ [(k, v)]

/-- URLFrontier state (crawler.py:44-47): FIFO queue of (url, depth),
seen set, and per-host last access time. -/
structure URLFrontier where
  queue : List (PyStr × Nat)
  seen : List PyStr
  host_last_access : List (PyStr × ℚ)

namespace URLFrontier

/-- URLFrontier.add (crawler.py:53-60): normalize, skip if seen, else mark
seen and append to the queue; returns whether the URL was newly added. -/
def add (f : URLFrontier) (url : PyStr) (depth : Nat) : Bool × URLFrontier :=
  let normalized := _normalize_url url
  if normalized ∈ f.seen then (false, f)
  else
    (true, { f with seen := normalized :: f.seen, queue := f.queue ++ [(normalized, depth)] })

/-- URLFrontier.__init__ (crawler.py:44-51): empty state, then add each
seed URL at depth 0. -/
def init (seed_urls : List PyStr) : URLFrontier :=
  seed_urls.foldl (fun f url => (f.add url 0).2) ⟨[], [], []⟩

/-- URLFrontier.size (crawler.py:96-98). -/
def size (f : URLFrontier) : Nat := f.queue.length

/-- The scan loop inside URLFrontier.get_next (crawler.py:68-84): pop the
front entry; if its host was accessed less than min_interval ago, re-enqueue
it at the back and try the next entry (the pass counter bounds the scan to
one full pass), otherwise record the access time and return it. -/
def getNextGo (min_interval now : ℚ) : Nat → URLFrontier → Option (PyStr × Nat) × URLFrontier
  | 0, f => (none, f)
  | n+1, f =>
    match f.queue with
    | [] => (none, f)
    | (url, depth) :: rest =>
      let host := netloc url
      let not_ready :=
        match alookup f.host_last_access host with
        | some last_access => decide (now - last_access < min_interval)
        | none => false
      if not_ready then
        getNextGo min_interval now n { f with queue := rest ++ [(url, depth)] }
      else
        (some (url, depth),
         { f with queue := rest, host_last_access := aset f.host_last_access host now })

/-- URLFrontier.get_next (crawler.py:62-84): min_interval = 60/rate_limit
seconds, at most one pass over the queue. -/
def get_next (f : URLFrontier) (rate_limit : Nat) (now : ℚ) :
    Option (PyStr × Nat) × URLFrontier :=
  getNextGo (60 / (rate_limit : ℚ)) now f.queue.length f

end URLFrontier

/-! Frontier lemmas. -/

theorem getNextGo_none_frontier (i now : ℚ) :
    ∀ (n : Nat) (f : URLFrontier), (URLFrontier.getNextGo i now n f).1 = none →
      (URLFrontier.getNextGo i now n f).2 = { f with queue := f.queue.rotate n } := by
  intro n
  induction n with
  | zero =>
    intro f _
    simp [URLFrontier.getNextGo, List.rotate_zero]
  | succ n ih =>
    intro f h
    rcases hq : f.queue with _ | ⟨⟨u, d⟩, rest⟩
    · simp [URLFrontier.getNextGo, hq] at h ⊢
      cases f
      simp_all
    · simp only [URLFrontier.getNextGo, hq] at h ⊢
      by_cases hr : (match alookup f.host_last_access (netloc u) with
        | some last_access => decide (now - last_access < i)
        | none => false) = true
      · rw [if_pos hr] at h ⊢
        rw [ih _ h]
        simp [List.rotate_cons_succ]
      · rw [if_neg hr] at h
        simp at h

theorem getNextGo_some_not_rate_limited (i now : ℚ) :
    ∀ (n : Nat) (f : URLFrontier) (u : PyStr) (d : Nat),
      (URLFrontier.getNextGo i now n f).1 = some (u, d) →
      ∀ t, alookup f.host_last_access (netloc u) = some t → ¬(now - t < i) := by
  intro n
  induction n with
  | zero => intro f u d h; simp [URLFrontier.getNextGo] at h
  | succ n ih =>
    intro f u d h t ht
    rcases hq : f.queue with _ | ⟨⟨u1, d1⟩, rest⟩
    · simp [URLFrontier.getNextGo, hq] at h
    · simp only [URLFrontier.getNextGo, hq] at h
      by_cases hr : (match alookup f.host_last_access (netloc u1) with
        | some last_access => decide (now - last_access < i)
        | none => false) = true
      · rw [if_pos hr] at h
        exact ih _ u d h t ht
      · rw [if_neg hr] at h
        change some (u1, d1) = some (u, d) at h
        injection h with h2
        injection h2 with hu hd
        subst hu
        rw [ht] at hr
        simpa using hr

/-- C4: the politeness gate of the frontier.  (i) get_next never returns a
URL whose host was last returned less than 60/rate_limit seconds before now;
(ii) with rate_limit = 1/min and two same-host URLs queued, the first call
returns the first URL, and a second call returns none when less than 60
seconds have passed (the entry having been re-enqueued at the back) and the
second URL once at least 60 seconds have passed; (iii) an entry that is not
ready is re-enqueued at the back of the queue and the scan continues with
one fewer pass credit; (iv) a scan that returns none makes exactly one full
pass, leaving the frontier as it was. -/
theorem c4_rate_limit :
    (∀ (f : URLFrontier) (r : Nat) (now : ℚ) (u : PyStr) (d : Nat),
       (f.get_next r now).1 = some (u, d) →
       ∀ t, alookup f.host_last_access (netloc u) = some t →
         60 / (r : ℚ) ≤ now - t) ∧
    (∀ (u1 u2 : PyStr) (d1 d2 : Nat) (t1 t2 : ℚ) (seen : List PyStr),
       netloc u1 = netloc u2 →
       let f0 : URLFrontier := ⟨[(u1, d1), (u2, d2)], seen, []⟩
       (f0.get_next 1 t1).1 = some (u1, d1) ∧
       (t2 - t1 < 60 →
         ((f0.get_next 1 t1).2.get_next 1 t2).1 = none ∧
         ((f0.get_next 1 t1).2.get_next 1 t2).2.queue = [(u2, d2)]) ∧
       (¬(t2 - t1 < 60) →
         ((f0.get_next 1 t1).2.get_next 1 t2).1 = some (u2, d2))) ∧
    (∀ (f : URLFrontier) (r : Nat) (now : ℚ) (u : PyStr) (d : Nat)
       (rest : List (PyStr × Nat)) (t : ℚ),
       f.queue = (u, d) :: rest →
       alookup f.host_last_access (netloc u) = some t →
       now - t < 60 / (r : ℚ) →
       f.get_next r now =
         URLFrontier.getNextGo (60 / (r : ℚ)) now rest.length
           { f with queue := rest ++ [(u, d)] }) ∧
    (∀ (f : URLFrontier) (r : Nat) (now : ℚ),
       (f.get_next r now).1 = none → (f.get_next r now).2 = f) := by
  refine ⟨?_, ?_, ?_, ?_⟩
  · intro f r now u d h t ht
    have := getNextGo_some_not_rate_limited (60 / (r : ℚ)) now f.queue.length f u d h t ht
    linarith [not_lt.mp this]
  · intro u1 u2 d1 d2 t1 t2 seen hhost
    have h60 : (60 : ℚ) / ((1 : Nat) : ℚ) = 60 := by norm_num
    constructor
    · simp [URLFrontier.get_next, URLFrontier.getNextGo, alookup]
    · have hfst :
          ((⟨[(u1, d1), (u2, d2)], seen, []⟩ : URLFrontier).get_next 1 t1).2 =
            ⟨[(u2, d2)], seen, [(netloc u1, t1)]⟩ := by
        simp [URLFrontier.get_next, URLFrontier.getNextGo, alookup, aset]
      rw [hfst]
      constructor
      · intro hlt
        have : alookup [(netloc u1, t1)] (netloc u2) = some t1 := by
          simp [alookup, ← hhost]
        constructor
        · simp [URLFrontier.get_next, URLFrontier.getNextGo, this, h60, hlt]
        · simp [URLFrontier.get_next, URLFrontier.getNextGo, this, h60, hlt]
      · intro hge
        have : alookup [(netloc u1, t1)] (netloc u2) = some t1 := by
          simp [alookup, ← hhost]
        simp [URLFrontier.get_next, URLFrontier.getNextGo, this, h60, hge]
  · intro f r now u d rest t hq ht hlt
    unfold URLFrontier.get_next
    rw [hq]
    simp only [URLFrontier.getNextGo, List.length_cons, hq, ht]
    rw [if_pos (by simpa using hlt)]
  · intro f r now h
    have := getNextGo_none_frontier (60 / (r : ℚ)) now f.queue.length f h
    unfold URLFrontier.get_next at h ⊢
    rw [this, List.rotate_length]

/-- C4 witness: concrete instantiations of c4_rate_limit: the two-URL
one-host scenario at rate 1/min where the first call at t=0 returns the
first URL, a second call at t=30 returns none leaving the frontier intact,
a second call at t=60 returns the second URL (part ii and part iv), and the
politeness bound of part i at the frontier left by the first call. -/
theorem c4_rate_limit_witness :
    ((⟨[("https://h/a".data, 0), ("https://h/b".data, 0)], [], []⟩ :
        URLFrontier).get_next 1 0).1 = some ("https://h/a".data, 0) ∧
    (((⟨[("https://h/a".data, 0), ("https://h/b".data, 0)], [], []⟩ :
        URLFrontier).get_next 1 0).2.get_next 1 30).1 = none ∧
    (((⟨[("https://h/a".data, 0), ("https://h/b".data, 0)], [], []⟩ :
        URLFrontier).get_next 1 0).2.get_next 1 30).2 =
      ((⟨[("https://h/a".data, 0), ("https://h/b".data, 0)], [], []⟩ :
        URLFrontier).get_next 1 0).2 ∧
    (((⟨[("https://h/a".data, 0), ("https://h/b".data, 0)], [], []⟩ :
        URLFrontier).get_next 1 0).2.get_next 1 60).1 = some ("https://h/b".data, 0) ∧
    (60 : ℚ) / ((1 : Nat) : ℚ) ≤ (60 : ℚ) - (0 : ℚ) := by
  have h2 := c4_rate_limit.2.1 "https://h/a".data "https://h/b".data 0 0 0 30 [] (by decide)
  have h3 := c4_rate_limit.2.1 "https://h/a".data "https://h/b".data 0 0 0 60 [] (by decide)
  have hne : ((60 : ℚ) - 0 < 60 / ((1 : Nat) : ℚ)) = False := by norm_num
  have hsome : ((⟨[("https://h/b".data, 0)], [], [("h".data, 0)]⟩ :
      URLFrontier).get_next 1 60).1 = some ("https://h/b".data, 0) := by
    simp [URLFrontier.get_next, URLFrontier.getNextGo, alookup, aset, netloc, afterScheme, hne]
  have h1 := c4_rate_limit.1 ⟨[("https://h/b".data, 0)], [], [("h".data, 0)]⟩ 1 60
      "https://h/b".data 0 hsome 0 (by decide)
  refine ⟨h2.1, (h2.2.1 (by norm_num)).1, ?_, h3.2.2 (by norm_num), h1⟩
  exact c4_rate_limit.2.2.2 _ 1 30 (h2.2.1 (by norm_num)).1

/-- C5: frontier dedup.  For a URL whose normalized form is unseen, add
returns true and a second identical add returns false; every add increases
size() by at most one; and a URL whose normalized form is already in the
seen set is never enqueued again (add returns false and leaves the frontier
unchanged). -/
theorem c5_add_dedup (f : URLFrontier) (u : PyStr) (d : Nat)
    (hfresh : _normalize_url u ∉ f.seen) :
    (f.add u d).1 = true ∧
    ((f.add u d).2.add u d).1 = false ∧
    (∀ g : URLFrontier, (g.add u d).2.size ≤ g.size + 1) ∧
    (∀ g : URLFrontier, _normalize_url u ∈ g.seen →
       (g.add u d).1 = false ∧ (g.add u d).2 = g) := by
  refine ⟨?_, ?_, ?_, ?_⟩
  · simp [URLFrontier.add, hfresh]
  · simp [URLFrontier.add, hfresh]
  · intro g
    by_cases hmem : _normalize_url u ∈ g.seen
    · simp [URLFrontier.add, URLFrontier.size, hmem]
    · simp [URLFrontier.add, URLFrontier.size, hmem]
  · intro g hg
    simp [URLFrontier.add, hg]

/-- C5 witness: the dedup properties at a concrete URL on the empty frontier. -/
theorem c5_add_dedup_witness :
    ((⟨[], [], []⟩ : URLFrontier).add "https://A.com/x".data 0).1 = true ∧
    (((⟨[], [], []⟩ : URLFrontier).add "https://A.com/x".data 0).2.add
        "https://A.com/x".data 0).1 = false := by
  have h := c5_add_dedup ⟨[], [], []⟩ "https://A.com/x".data 0 (by decide)
  exact ⟨h.1, h.2.1⟩

/-! C9: over a frontier's lifetime each normalized URL is returned by
get_next at most once: add refuses URLs already in seen, not-ready entries
are only rotated, and a returned entry is removed from the queue. -/

/-- A frontier operation: an add call or a get_next call at some time. -/
inductive FOp where
  | add (url : PyStr) (depth : Nat)
  | next (rate : Nat) (now : ℚ)

/-- Run a sequence of frontier operations, collecting the URLs get_next
returns, in order. -/
def runOps : URLFrontier → List FOp → List PyStr
  | _, [] => []
  | f, FOp.add u d :: ops => runOps (f.add u d).2 ops
  | f, FOp.next r t :: ops =>
    match f.get_next r t with
    | (some (u, _), f') => u :: runOps f' ops
    | (none, f') => runOps f' ops

/-- The frontier invariant behind C9: the already-returned URLs and the
queued URLs are jointly distinct, and every one of them is in seen. -/
def FrontierInv (f : URLFrontier) (rets : List PyStr) : Prop :=
  (rets ++ f.queue.map Prod.fst).Nodup ∧
  ∀ u ∈ rets ++ f.queue.map Prod.fst, u ∈ f.seen

theorem add_preserves_inv (f : URLFrontier) (rets : List PyStr) (u : PyStr) (d : Nat)
    (h : FrontierInv f rets) : FrontierInv (f.add u d).2 rets := by
  obtain ⟨hnd, hseen⟩ := h
  by_cases hmem : _normalize_url u ∈ f.seen
  · have heq : (f.add u d).2 = f := by simp [URLFrontier.add, hmem]
    rw [heq]
    exact ⟨hnd, hseen⟩
  · have heq : (f.add u d).2 =
        ⟨f.queue ++ [(_normalize_url u, d)], _normalize_url u :: f.seen,
          f.host_last_access⟩ := by
      simp [URLFrontier.add, hmem]
    rw [heq]
    constructor
    · show (rets ++ (f.queue ++ [(_normalize_url u, d)]).map Prod.fst).Nodup
      rw [List.map_append, ← List.append_assoc]
      refine List.nodup_append.mpr ⟨hnd, by simp, ?_⟩
      intro x hx hx1
      simp only [List.map_cons, List.map_nil, List.mem_singleton] at hx1
      subst hx1
      exact hmem (hseen _ hx)
    · intro x hx
      show x ∈ _normalize_url u :: f.seen
      rw [List.map_append, ← List.append_assoc] at hx
      rcases List.mem_append.mp hx with hx | hx
      · exact List.mem_cons_of_mem _ (hseen x hx)
      · simp only [List.map_cons, List.map_nil, List.mem_singleton] at hx
        subst hx
        exact List.mem_cons_self _ _

theorem getNextGo_some_perm (i now : ℚ) :
    ∀ (n : Nat) (f : URLFrontier) (u : PyStr) (d : Nat) (f' : URLFrontier),
      URLFrontier.getNextGo i now n f = (some (u, d), f') →
      f'.seen = f.seen ∧ List.Perm f.queue ((u, d) :: f'.queue) := by
  intro n
  induction n with
  | zero =>
    intro f u d f' h
    simp [URLFrontier.getNextGo] at h
  | succ n ih =>
    intro f u d f' h
    rcases hq : f.queue with _ | ⟨⟨u1, d1⟩, rest⟩
    · simp [URLFrontier.getNextGo, hq] at h
    · simp only [URLFrontier.getNextGo, hq] at h
      by_cases hr : (match alookup f.host_last_access (netloc u1) with
        | some last_access => decide (now - last_access < i)
        | none => false) = true
      · rw [if_pos hr] at h
        obtain ⟨hs, hp⟩ := ih _ u d f' h
        exact ⟨hs, (List.perm_append_singleton _ _).symm.trans hp⟩
      · rw [if_neg hr] at h
        injection h with h1 h2
        injection h1 with h3
        injection h3 with hu hd
        subst hu
        subst hd
        constructor
        · rw [← h2]
        · rw [← h2]

theorem getNextGo_none_perm (i now : ℚ) (n : Nat) (f f' : URLFrontier)
    (h : URLFrontier.getNextGo i now n f = (none, f')) :
    f'.seen = f.seen ∧ List.Perm f.queue f'.queue := by
  have h1 : (URLFrontier.getNextGo i now n f).1 = none := by rw [h]
  have h2 := getNextGo_none_frontier i now n f h1
  rw [h] at h2
  simp only at h2
  rw [h2]
  exact ⟨rfl, (List.rotate_perm _ _).symm⟩

theorem get_next_some_preserves_inv (f : URLFrontier) (rets : List PyStr) (r : Nat) (t : ℚ)
    (u : PyStr) (d : Nat) (f' : URLFrontier) (hinv : FrontierInv f rets)
    (hg : f.get_next r t = (some (u, d), f')) : FrontierInv f' (rets ++ [u]) := by
  obtain ⟨hnd, hseen⟩ := hinv
  obtain ⟨hs, hp⟩ := getNextGo_some_perm (60 / (r : ℚ)) t f.queue.length f u d f' hg
  have hpf : List.Perm (f.queue.map Prod.fst) (u :: f'.queue.map Prod.fst) := by
    simpa using hp.map Prod.fst
  have hbig : List.Perm (rets ++ f.queue.map Prod.fst)
      ((rets ++ [u]) ++ f'.queue.map Prod.fst) := by
    have h1 := hpf.append_left rets
    rw [List.append_assoc]
    simpa using h1
  constructor
  · exact hbig.nodup hnd
  · intro x hx
    rw [hs]
    have : x ∈ rets ++ f.queue.map Prod.fst := hbig.mem_iff.mpr hx
    exact hseen x this

theorem get_next_none_preserves_inv (f : URLFrontier) (rets : List PyStr) (r : Nat) (t : ℚ)
    (f' : URLFrontier) (hinv : FrontierInv f rets)
    (hg : f.get_next r t = (none, f')) : FrontierInv f' rets := by
  obtain ⟨hnd, hseen⟩ := hinv
  obtain ⟨hs, hp⟩ := getNextGo_none_perm (60 / (r : ℚ)) t f.queue.length f f' hg
  have hpf : List.Perm (f.queue.map Prod.fst) (f'.queue.map Prod.fst) := hp.map Prod.fst
  have hbig : List.Perm (rets ++ f.queue.map Prod.fst) (rets ++ f'.queue.map Prod.fst) :=
    hpf.append_left rets
  exact ⟨hbig.nodup hnd, fun x hx => hs ▸ hseen x (hbig.mem_iff.mpr hx)⟩

theorem runOps_nodup_aux :
    ∀ (ops : List FOp) (f : URLFrontier) (rets : List PyStr),
      FrontierInv f rets → (rets ++ runOps f ops).Nodup := by
  intro ops
  induction ops with
  | nil =>
    intro f rets h
    simpa [runOps] using (List.nodup_append.mp h.1).1
  | cons op ops ih =>
    intro f rets h
    cases op with
    | add u d =>
      simpa [runOps] using ih _ rets (add_preserves_inv f rets u d h)
    | next r t =>
      rcases hg : f.get_next r t with ⟨o, f'⟩
      cases o with
      | none =>
        have := ih f' rets (get_next_none_preserves_inv f rets r t f' h hg)
        simpa [runOps, hg] using this
      | some ud =>
        obtain ⟨u, d⟩ := ud
        have hinv := get_next_some_preserves_inv f rets r t u d f' h hg
        have := ih f' (rets ++ [u]) hinv
        rw [List.append_assoc] at this
        simpa [runOps, hg] using this

theorem foldl_add_inv :
    ∀ (seeds : List PyStr) (f : URLFrontier), FrontierInv f [] →
      FrontierInv (seeds.foldl (fun g url => (g.add url 0).2) f) [] := by
  intro seeds
  induction seeds with
  | nil => intro f h; simpa using h
  | cons s rest ih => intro f h; exact ih _ (add_preserves_inv f [] s 0 h)

/-- C9: for every seed list and every sequence of add/get_next operations
on a frontier built from those seeds, the list of URLs get_next returns
over the frontier's lifetime has no duplicates: each normalized URL is
returned at most once. -/
theorem c9_each_url_returned_once (seeds : List PyStr) (ops : List FOp) :
    (runOps (URLFrontier.init seeds) ops).Nodup := by
  have hbase : FrontierInv ⟨[], [], []⟩ [] := by
    constructor
    · simp
    · intro u hu
      simp at hu
  have hinv : FrontierInv (URLFrontier.init seeds) [] := foldl_add_inv seeds _ hbase
  simpa using runOps_nodup_aux ops _ [] hinv

/-! Storage layer (storage.py): the pages table keyed by URL, save_page and
get_page_info.  The PostgreSQL table is modelled as the association-list
state the queries read and write; a crawl session's terminal status is part
of the crawl result below. -/

/-- PageRecord (storage.py:14-27). -/
structure PageRecord where
  url : PyStr
  host : PyStr
  content_hash : PyStr
  etag : Option PyStr
  last_modified : Option PyStr
  status_code : Nat
  headers : List (PyStr × PyStr)
  crawled_at : ℚ
  content_type : PyStr := "text/html".data
  is_blocked : Bool := false
  error_message : Option PyStr := none

/-- The pages table: one row per URL. -/
abbrev Store := List (PyStr × PageRecord)

namespace StorageAdapter

/-- StorageAdapter.get_page_info (storage.py:152-165): content_hash, etag
and last_modified of the existing row, if any (crawled_at is selected too
but unused downstream). -/
def get_page_info (store : Store) (url : PyStr) : Option PrevInfo :=
  (alookup store url).map (fun r => ⟨r.content_hash, r.etag, r.last_modified⟩)

/-- StorageAdapter.save_page (storage.py:167-222): if a row for the URL
exists, update every column except url and host and return whether the
stored content_hash differs from the new one; otherwise insert the record
and return true. -/
def save_page (store : Store) (page : PageRecord) : Bool × Store :=
  match alookup store page.url with
  | some existing =>
      (decide (existing.content_hash ≠ page.content_hash),
       aset store page.url { page with host := existing.host })
  | none => (true, store ++ [(page.url, page)])

end StorageAdapter

/-! Crawl orchestrator (crawler.py:130-257), as an explicit state machine.
External effects are parameters of a CrawlEnv: fetcher.fetch outcomes
(Except, error = the call raised), the loaded robots parser behind
_can_fetch, BeautifulSoup link extraction (_extract_links), the
BeautifulSoup-based normalize_html, per-URL failure injection for the two
storage awaits inside the per-page try block (get_page_info, save_page),
and the datetime.utcnow() value of each loop iteration.  Awaited calls are
recorded in an event log so that absence of a fetch or of a persisted
record is expressible. -/

/-- An observable effect of the crawl loop. -/
inductive CrawlEvent where
  | fetched (url : PyStr)
  | saved (page : PageRecord) (content : PyStr)
  | s3Saved (key : PyStr)

/-- The crawl environment: configuration (CrawlerSettings defaults,
crawler.py:23-38) and the external collaborators. -/
structure CrawlEnv where
  host : PyStr
  crawl_rate_limit : Nat := 4
  max_depth : Nat := 10
  max_pages_per_host : Nat := 10000
  canFetch : PyStr → Bool
  fetchResult : PyStr → Except Unit (Nat × List (PyStr × PyStr) × PyStr × Option PyStr)
  extractLinks : PyStr → PyStr → List PyStr
  normalize_html : PyStr → PyStr
  failGet : PyStr → Bool
  failSave : PyStr → Bool
  times : Nat → ℚ

/-- The mutable state of one crawl_host run. -/
structure CrawlState where
  frontier : URLFrontier
  pages_crawled : Nat := 0
  pages_changed : Nat := 0
  store : Store
  log : List CrawlEvent := []
  tick : Nat := 0

/-- The s3 key built at crawler.py:210-212: pages/host/path with the
leading slashes of the path stripped, plus /index.html unless the key
already ends in .html. -/
def s3KeyFor (host url : PyStr) : PyStr :=
  let key := "pages/".data ++ host ++ "/".data ++ (urlPath url).dropWhile (· == '/')
  if ".html".data.isSuffixOf key then key else key ++ "/index.html".data

/-- The PageRecord built at crawler.py:188-201: content_hash is the sha256
of the normalized content, etag/last-modified copied from the response
headers, is_blocked for status 403/503. -/
def builtPage (env : CrawlEnv) (url : PyStr) (status_code : Nat)
    (headers : List (PyStr × PyStr)) (content : PyStr) (error : Option PyStr)
    (now : ℚ) : PageRecord :=
  { url := url
    host := env.host
    content_hash := StorageAdapter.compute_content_hash (env.normalize_html content)
    etag := dictGet headers "etag".data
    last_modified := dictGet headers "last-modified".data
    status_code := status_code
    headers := headers
    crawled_at := now
    is_blocked := status_code == 403 || status_code == 503
    error_message := error }

/-- The body of the per-page try block (crawler.py:176-231).  Returns the
state after the attempt and whether it completed without an exception; on
an exception (fetch error, get_page_info failure, save_page failure) the
state accumulated so far is kept and the flag is false — the caller's
except handler only logs.  Mirrors the source order: fetch, get_page_info,
has_changed, build record, save_page (counting pages_changed from its
return flag), save changed content to S3, extract same-host links into the
frontier, then pages_crawled += 1. -/
def processPage (env : CrawlEnv) (s : CrawlState) (url : PyStr) (depth : Nat) (now : ℚ) :
    CrawlState × Bool :=
  let s1 := { s with log := s.log ++ [CrawlEvent.fetched url] }
  match env.fetchResult url with
  | Except.error _ => (s1, false)
  | Except.ok (status_code, headers, content, error) =>
    if env.failGet url then (s1, false)
    else
      let prev_info := StorageAdapter.get_page_info s1.store url
      let hc := ChangeDetector.has_changed env.normalize_html headers content prev_info
      let page := builtPage env url status_code headers content error now
      if env.failSave url then (s1, false)
      else
        let su := StorageAdapter.save_page s1.store page
        let s2 := { s1 with
          store := su.2
          log := s1.log ++ [CrawlEvent.saved page content]
          pages_changed := s1.pages_changed + (if su.1 then 1 else 0) }
        let s3 := if hc.1 && !content.isEmpty then
            { s2 with log := s2.log ++ [CrawlEvent.s3Saved (s3KeyFor env.host url)] }
          else s2
        let newFrontier := (env.extractLinks url content).foldl
          (fun fr link =>
            if netloc link == env.host then (fr.add link (depth + 1)).2 else fr)
          s3.frontier
        let s4 := if status_code == 200 && !content.isEmpty then
            { s3 with frontier := newFrontier }
          else s3
        ({ s4 with pages_crawled := s4.pages_crawled + 1 }, true)

/-- The terminal crawl result (crawler.py:244-250): the dict crawl_host
returns, with the session's terminal status. -/
structure CrawlResult where
  host : PyStr
  pages_crawled : Nat
  pages_changed : Nat
  status : PyStr

/-- The while loop of crawl_host (crawler.py:155-234) plus the normal
completion (crawler.py:236-250), fuel-bounded: while the frontier is
nonempty and pages_crawled < max_pages_per_host, pull the next URL
(sleeping when rate limited), skip robots-blocked or too-deep entries,
otherwise process the page with the per-page exception handler; on exit,
complete the session with status "completed". -/
def crawl_loop (env : CrawlEnv) : Nat → CrawlState → Option (CrawlResult × CrawlState)
  | 0, _ => none
  | fuel+1, s =>
    if s.frontier.size > 0 ∧ s.pages_crawled < env.max_pages_per_host then
      let now := env.times s.tick
      let g := s.frontier.get_next env.crawl_rate_limit now
      let s1 := { s with frontier := g.2, tick := s.tick + 1 }
      match g.1 with
      | none => crawl_loop env fuel s1
      | some (url, depth) =>
        if !(env.canFetch url) then crawl_loop env fuel s1
        else if depth > env.max_depth then crawl_loop env fuel s1
        else crawl_loop env fuel (processPage env s1 url depth now).1
    else
      some ({ host := env.host, pages_crawled := s.pages_crawled,
              pages_changed := s.pages_changed, status := "completed".data }, s)

/-- Crawler.crawl_host (crawler.py:130-257): seed the frontier with
https://host/ and https://host/index.html, add same-host sitemap URLs at
depth 1 (_parse_sitemap, crawler.py:274-300), then run the crawl loop. -/
def crawl_host (env : CrawlEnv) (sitemapUrls : List PyStr) (fuel : Nat)
    (store : Store) : Option (CrawlResult × CrawlState) :=
  let frontier0 := URLFrontier.init
    ["https://".data ++ env.host ++ "/".data,
     "https://".data ++ env.host ++ "/index.html".data]
  let frontier1 := sitemapUrls.foldl
    (fun fr url =>
      if !url.isEmpty && (netloc url == env.host) then (fr.add url 1).2 else fr)
    frontier0
  crawl_loop env fuel { frontier := frontier1, store := store }

/-! Step lemmas for the crawl loop. -/

theorem crawl_loop_exit (env : CrawlEnv) (fuel : Nat) (s : CrawlState)
    (hc : ¬(s.frontier.size > 0 ∧ s.pages_crawled < env.max_pages_per_host)) :
    crawl_loop env (fuel + 1) s =
      some ({ host := env.host, pages_crawled := s.pages_crawled,
              pages_changed := s.pages_changed, status := "completed".data }, s) := by
  rw [crawl_loop, if_neg hc]

theorem crawl_loop_succ_none (env : CrawlEnv) (fuel : Nat) (s : CrawlState)
    (hc : s.frontier.size > 0 ∧ s.pages_crawled < env.max_pages_per_host)
    (hg : (s.frontier.get_next env.crawl_rate_limit (env.times s.tick)).1 = none) :
    crawl_loop env (fuel + 1) s =
      crawl_loop env fuel
        { s with frontier := (s.frontier.get_next env.crawl_rate_limit (env.times s.tick)).2,
                 tick := s.tick + 1 } := by
  rw [crawl_loop, if_pos hc]
  simp only [hg]

theorem crawl_loop_succ_some (env : CrawlEnv) (fuel : Nat) (s : CrawlState)
    (url : PyStr) (depth : Nat)
    (hc : s.frontier.size > 0 ∧ s.pages_crawled < env.max_pages_per_host)
    (hg : (s.frontier.get_next env.crawl_rate_limit (env.times s.tick)).1 = some (url, depth)) :
    crawl_loop env (fuel + 1) s =
      (if !(env.canFetch url) then
        crawl_loop env fuel
          { s with frontier := (s.frontier.get_next env.crawl_rate_limit (env.times s.tick)).2,
                   tick := s.tick + 1 }
      else if depth > env.max_depth then
        crawl_loop env fuel
          { s with frontier := (s.frontier.get_next env.crawl_rate_limit (env.times s.tick)).2,
                   tick := s.tick + 1 }
      else
        crawl_loop env fuel
          (processPage env
            { s with frontier := (s.frontier.get_next env.crawl_rate_limit (env.times s.tick)).2,
                     tick := s.tick + 1 }
            url depth (env.times s.tick)).1) := by
  rw [crawl_loop, if_pos hc]
  simp only [hg]

/-- When save_page raises for a URL, the whole per-page attempt collapses
to the logged fetch and the caught exception, whatever the fetch and
get_page_info did. -/
theorem processPage_failSave (env : CrawlEnv) (s : CrawlState) (url : PyStr)
    (depth : Nat) (now : ℚ) (hf : env.failSave url = true) :
    processPage env s url depth now =
      ({ s with log := s.log ++ [CrawlEvent.fetched url] }, false) := by
  unfold processPage
  cases h : env.fetchResult url with
  | error e => rfl
  | ok v =>
    obtain ⟨status_code, headers, content, error⟩ := v
    by_cases hg : env.failGet url = true
    · simp [hg]
    · simp [hg, hf]

/-- C2 (amended): a persistence failure during the crawl loop is NOT fatal.
save_page raising is caught by the per-page except handler (crawler.py:
233-234): the attempt only logs the fetch, counts nothing and changes no
state, and the loop continues; consequently a run in which every save_page
call raises still terminates normally with session status "completed" and
with the counters and the pages table exactly as they started — the session
is never marked "failed" by a persistence failure inside the loop. -/
theorem c2_persistence_failure_not_fatal (env : CrawlEnv)
    (hf : ∀ u, env.failSave u = true) :
    (∀ (s : CrawlState) (url : PyStr) (depth : Nat) (now : ℚ),
       processPage env s url depth now =
         ({ s with log := s.log ++ [CrawlEvent.fetched url] }, false)) ∧
    (∀ (fuel : Nat) (s : CrawlState) (r : CrawlResult) (s' : CrawlState),
       crawl_loop env fuel s = some (r, s') →
       r.status = "completed".data ∧ r.pages_crawled = s.pages_crawled ∧
         r.pages_changed = s.pages_changed ∧ s'.store = s.store) := by
  constructor
  · intro s url depth now
    exact processPage_failSave env s url depth now (hf url)
  · intro fuel
    induction fuel with
    | zero =>
      intro s r s' h
      simp [crawl_loop] at h
    | succ fuel ih =>
      intro s r s' h
      by_cases hc : s.frontier.size > 0 ∧ s.pages_crawled < env.max_pages_per_host
      · rcases hg : (s.frontier.get_next env.crawl_rate_limit (env.times s.tick)).1 with
          _ | ⟨url, depth⟩
        · rw [crawl_loop_succ_none env fuel s hc hg] at h
          have hx := ih _ r s' h
          exact hx
        · rw [crawl_loop_succ_some env fuel s url depth hc hg] at h
          by_cases hcf : env.canFetch url = true
          · rw [hcf] at h
            simp only [Bool.not_true, Bool.false_eq_true, if_false] at h
            by_cases hd : depth > env.max_depth
            · rw [if_pos hd] at h
              have hx := ih _ r s' h
              exact hx
            · rw [if_neg hd] at h
              rw [processPage_failSave env _ url depth _ (hf url)] at h
              have hx := ih _ r s' h
              exact hx
          · have hcf' : env.canFetch url = false := by
              cases hcv : env.canFetch url
              · rfl
              · exact absurd hcv hcf
            rw [hcf'] at h
            simp only [Bool.not_false, if_true] at h
            have hx := ih _ r s' h
            exact hx
      · rw [crawl_loop_exit env fuel s hc] at h
        injection h with h1
        injection h1 with hr hs
        subst hr
        subst hs
        exact ⟨rfl, rfl, rfl, rfl⟩

/-- C2 witness for the amended claim: a concrete environment in which every
save_page call raises. -/
def failingStoreEnv : CrawlEnv :=
  { host := "h".data
    canFetch := fun _ => true
    fetchResult := fun _ => Except.ok (200, [], "x".data, none)
    extractLinks := fun _ _ => []
    normalize_html := fun s => s
    failGet := fun _ => false
    failSave := fun _ => true
    times := fun n => 1000 * (n : ℚ) }

theorem c2_persistence_failure_not_fatal_witness :
    processPage failingStoreEnv
        { frontier := ⟨[], [], []⟩, store := [] } "https://h".data 0 0 =
      ({ frontier := (⟨[], [], []⟩ : URLFrontier), store := [],
         log := [CrawlEvent.fetched "https://h".data] }, false) := by
  have h := (c2_persistence_failure_not_fatal failingStoreEnv (fun _ => rfl)).1
      { frontier := ⟨[], [], []⟩, store := [] } "https://h".data 0 0
  rw [h]
  rfl

/-- C2 counterexample to the claim as stated: with the store failing every
save, crawl_host still visits both seed URLs (two fetch events in the log)
and returns a result with status "completed" and zero counters — it does
not mark the session "failed" and it does continue past the failure. -/
theorem c2_counterexample :
    (crawl_host failingStoreEnv [] 3 []).map
        (fun rs => (rs.1.status, rs.1.pages_crawled, rs.1.pages_changed, rs.2.log.length)) =
      some ("completed".data, 0, 0, 2) := by
  have hA : crawl_host failingStoreEnv [] 3 [] =
      crawl_loop failingStoreEnv 3
        { frontier := ⟨[("https://h".data, 0), ("https://h/index.html".data, 0)],
            ["https://h/index.html".data, "https://h".data], []⟩, store := [] } := by
    rfl
  have hg1 : (URLFrontier.get_next
      ⟨[("https://h".data, 0), ("https://h/index.html".data, 0)],
        ["https://h/index.html".data, "https://h".data], []⟩
      failingStoreEnv.crawl_rate_limit (failingStoreEnv.times 0)) =
      (some ("https://h".data, 0),
       ⟨[("https://h/index.html".data, 0)],
        ["https://h/index.html".data, "https://h".data], [("h".data, 0)]⟩) := by
    simp +decide [URLFrontier.get_next, URLFrontier.getNextGo, alookup, aset, netloc,
      afterScheme, failingStoreEnv]
  have hg2 : (URLFrontier.get_next
      ⟨[("https://h/index.html".data, 0)],
        ["https://h/index.html".data, "https://h".data], [("h".data, 0)]⟩
      failingStoreEnv.crawl_rate_limit (failingStoreEnv.times 1)) =
      (some ("https://h/index.html".data, 0),
       ⟨[], ["https://h/index.html".data, "https://h".data], [("h".data, 1000)]⟩) := by
    have hcmp : ((1000 : ℚ) * 1 - 0 < 60 / 4) = False := by norm_num
    simp +decide [URLFrontier.get_next, URLFrontier.getNextGo, alookup, aset, netloc,
      afterScheme, failingStoreEnv]
    norm_num
  have hpp : ∀ (s : CrawlState) (url : PyStr) (depth : Nat) (now : ℚ),
      processPage failingStoreEnv s url depth now =
        ({ s with log := s.log ++ [CrawlEvent.fetched url] }, false) :=
    fun s url depth now => processPage_failSave failingStoreEnv s url depth now rfl
  rw [hA]
  simp +decide [crawl_loop, URLFrontier.size, hg1, hg2, hpp]

/-- C7: a frontier entry whose URL the loaded robots.txt rules disallow is
skipped before fetching: the loop recurses on the state with only the
dequeued frontier and the advanced clock — the log (so no fetch and no
saved PageRecord), the pages_crawled counter and the pages table are
untouched — and the crawl continues with the next entry. -/
theorem c7_robots_skip (env : CrawlEnv) (s : CrawlState) (url : PyStr) (depth : Nat)
    (fuel : Nat)
    (hsz : s.frontier.size > 0) (hpg : s.pages_crawled < env.max_pages_per_host)
    (hg : (s.frontier.get_next env.crawl_rate_limit (env.times s.tick)).1 = some (url, depth))
    (hrob : env.canFetch url = false) :
    crawl_loop env (fuel + 1) s =
      crawl_loop env fuel
        { s with frontier := (s.frontier.get_next env.crawl_rate_limit (env.times s.tick)).2,
                 tick := s.tick + 1 } ∧
    ({ s with frontier := (s.frontier.get_next env.crawl_rate_limit (env.times s.tick)).2,
              tick := s.tick + 1 } : CrawlState).log = s.log ∧
    ({ s with frontier := (s.frontier.get_next env.crawl_rate_limit (env.times s.tick)).2,
              tick := s.tick + 1 } : CrawlState).pages_crawled = s.pages_crawled ∧
    ({ s with frontier := (s.frontier.get_next env.crawl_rate_limit (env.times s.tick)).2,
              tick := s.tick + 1 } : CrawlState).store = s.store := by
  refine ⟨?_, rfl, rfl, rfl⟩
  rw [crawl_loop_succ_some env fuel s url depth ⟨hsz, hpg⟩ hg, hrob]
  rfl

/-- C7 witness environment: robots.txt disallows everything. -/
def blockedEnv : CrawlEnv :=
  { host := "h".data
    canFetch := fun _ => false
    fetchResult := fun _ => Except.error ()
    extractLinks := fun _ _ => []
    normalize_html := fun s => s
    failGet := fun _ => false
    failSave := fun _ => false
    times := fun _ => 0 }

theorem c7_robots_skip_witness :
    crawl_loop blockedEnv 5
        { frontier := ⟨[("https://h/p".data, 0)], [], []⟩, store := [] } =
      crawl_loop blockedEnv 4
        { frontier :=
            ((⟨[("https://h/p".data, 0)], [], []⟩ : URLFrontier).get_next
              blockedEnv.crawl_rate_limit (blockedEnv.times 0)).2
          store := []
          tick := 1 } := by
  have hg : ((⟨[("https://h/p".data, 0)], [], []⟩ : URLFrontier).get_next
      blockedEnv.crawl_rate_limit (blockedEnv.times 0)).1 = some ("https://h/p".data, 0) := by
    simp [URLFrontier.get_next, URLFrontier.getNextGo, alookup]
  exact (c7_robots_skip blockedEnv
    { frontier := ⟨[("https://h/p".data, 0)], [], []⟩, store := [] }
    "https://h/p".data 0 4 (by decide) (by decide) hg rfl).1

/-! C8: every persisted PageRecord carries the sha256 of the normalized
content, and the change detector's hash comparison uses the same
normalization pipeline. -/

/-- Every saved-record event in the log carries the sha256 hex digest of
the normalized content, never of the raw body. -/
def savedHashOk (env : CrawlEnv) (log : List CrawlEvent) : Prop :=
  ∀ (page : PageRecord) (content : PyStr),
    CrawlEvent.saved page content ∈ log →
    page.content_hash = StorageAdapter.compute_content_hash (env.normalize_html content)

theorem savedHashOk_extend (env : CrawlEnv) (log : List CrawlEvent) (ev : CrawlEvent)
    (h : savedHashOk env log)
    (hev : ∀ page content, ev = CrawlEvent.saved page content →
       page.content_hash = StorageAdapter.compute_content_hash (env.normalize_html content)) :
    savedHashOk env (log ++ [ev]) := by
  intro page content hmem
  rcases List.mem_append.mp hmem with hm | hm
  · exact h page content hm
  · simp only [List.mem_singleton] at hm
    exact hev page content hm.symm

theorem processPage_savedHashOk (env : CrawlEnv) (s : CrawlState) (url : PyStr)
    (depth : Nat) (now : ℚ) (h : savedHashOk env s.log) :
    savedHashOk env (processPage env s url depth now).1.log := by
  have hfetchext : savedHashOk env (s.log ++ [CrawlEvent.fetched url]) := by
    refine savedHashOk_extend env s.log _ h ?_
    intro p c heq
    exact CrawlEvent.noConfusion heq
  have hsavedext : ∀ (page : PageRecord) (content : PyStr),
      page.content_hash = StorageAdapter.compute_content_hash (env.normalize_html content) →
      savedHashOk env ((s.log ++ [CrawlEvent.fetched url]) ++
        [CrawlEvent.saved page content]) := by
    intro page content hhash
    refine savedHashOk_extend env _ _ hfetchext ?_
    intro p c heq
    injection heq with h1 h2
    subst h1
    subst h2
    exact hhash
  unfold processPage
  cases hf : env.fetchResult url with
  | error e => exact hfetchext
  | ok v =>
    obtain ⟨status_code, headers, content, error⟩ := v
    by_cases hg : env.failGet url = true
    · simp only [hg, if_true]
      exact hfetchext
    · rw [Bool.not_eq_true] at hg
      simp only [hg, Bool.false_eq_true, if_false]
      by_cases hsv : env.failSave url = true
      · simp only [hsv, if_true]
        exact hfetchext
      · rw [Bool.not_eq_true] at hsv
        simp only [hsv, Bool.false_eq_true, if_false]
        have hcore := hsavedext
          (builtPage env url status_code headers content error now) content rfl
        by_cases h3 : ((ChangeDetector.has_changed env.normalize_html headers content
            (StorageAdapter.get_page_info
              { s with log := s.log ++ [CrawlEvent.fetched url] }.store url)).1 &&
            !content.isEmpty) = true
        · simp only [h3, if_true]
          by_cases h4 : (status_code == 200 && !content.isEmpty) = true
          · simp only [h4, if_true]
            refine savedHashOk_extend env _ _ hcore ?_
            intro p c heq
            exact CrawlEvent.noConfusion heq
          · rw [Bool.not_eq_true] at h4
            simp only [h4, Bool.false_eq_true, if_false]
            refine savedHashOk_extend env _ _ hcore ?_
            intro p c heq
            exact CrawlEvent.noConfusion heq
        · rw [Bool.not_eq_true] at h3
          simp only [h3, Bool.false_eq_true, if_false]
          by_cases h4 : (status_code == 200 && !content.isEmpty) = true
          · simp only [h4, if_true]
            exact hcore
          · rw [Bool.not_eq_true] at h4
            simp only [h4, Bool.false_eq_true, if_false]
            exact hcore

theorem crawl_loop_savedHashOk (env : CrawlEnv) :
    ∀ (fuel : Nat) (s : CrawlState) (r : CrawlResult) (s' : CrawlState),
      savedHashOk env s.log → crawl_loop env fuel s = some (r, s') →
      savedHashOk env s'.log := by
  intro fuel
  induction fuel with
  | zero =>
    intro s r s' _ h
    simp [crawl_loop] at h
  | succ fuel ih =>
    intro s r s' hok h
    by_cases hc : s.frontier.size > 0 ∧ s.pages_crawled < env.max_pages_per_host
    · rcases hg : (s.frontier.get_next env.crawl_rate_limit (env.times s.tick)).1 with
        _ | ⟨url, depth⟩
      · rw [crawl_loop_succ_none env fuel s hc hg] at h
        refine ih _ r s' ?_ h
        exact hok
      · rw [crawl_loop_succ_some env fuel s url depth hc hg] at h
        by_cases hcf : env.canFetch url = true
        · rw [hcf] at h
          simp only [Bool.not_true, Bool.false_eq_true, if_false] at h
          by_cases hd : depth > env.max_depth
          · rw [if_pos hd] at h
            refine ih _ r s' ?_ h
            exact hok
          · rw [if_neg hd] at h
            refine ih _ r s' ?_ h
            exact processPage_savedHashOk env _ url depth _ hok
        · rw [Bool.not_eq_true] at hcf
          rw [hcf] at h
          simp only [Bool.not_false, if_true] at h
          refine ih _ r s' ?_ h
          exact hok
    · rw [crawl_loop_exit env fuel s hc] at h
      injection h with h1
      injection h1 with hr hs
      subst hs
      exact hok

/-- C8: (i) in every terminating crawl_host run, every persisted PageRecord
has content_hash = sha256 hex digest of normalize_html applied to the
fetched body — never the hash of the raw body; (ii) when neither the ETag
nor the Last-Modified branch applies, has_changed compares the previous
content_hash against the sha256 of the SAME normalization of the current
content, so storage and comparison use identical normalization. -/
theorem c8_content_hash_normalized :
    (∀ (env : CrawlEnv) (sitemapUrls : List PyStr) (fuel : Nat) (store : Store)
       (r : CrawlResult) (s' : CrawlState),
       crawl_host env sitemapUrls fuel store = some (r, s') → savedHashOk env s'.log) ∧
    (∀ (nh : PyStr → PyStr) (headers : List (PyStr × PyStr)) (content : PyStr) (p : PrevInfo),
       (!(pyStrip '"' ((dictGet headers "etag".data).getD [])).isEmpty && truthy p.etag)
           = false →
       (truthy (dictGet headers "last-modified".data) && truthy p.last_modified &&
           (dictGet headers "last-modified".data == p.last_modified)) = false →
       ChangeDetector.has_changed nh headers content (some p) =
         (if StorageAdapter.compute_content_hash (nh content) = p.content_hash
          then (false, "content_hash_match".data)
          else (true, "content_changed".data))) := by
  constructor
  · intro env sitemapUrls fuel store r s' h
    unfold crawl_host at h
    refine crawl_loop_savedHashOk env fuel _ r s' ?_ h
    intro p c hm
    simp at hm
  · intro nh headers content p h1 h2
    by_cases he : StorageAdapter.compute_content_hash (nh content) = p.content_hash
    · simp [ChangeDetector.has_changed, h1, h2, he]
    · simp [ChangeDetector.has_changed, h1, h2, he]

/-- C8 witness: the hash branch of has_changed at a concrete input with no
ETag and no Last-Modified. -/
theorem c8_content_hash_normalized_witness :
    ChangeDetector.has_changed (fun s => s) [] "x".data
        (some ⟨"deadbeef".data, none, none⟩) =
      (if StorageAdapter.compute_content_hash "x".data = "deadbeef".data
       then (false, "content_hash_match".data)
       else (true, "content_changed".data)) :=
  c8_content_hash_normalized.2 (fun s => s) [] "x".data
    ⟨"deadbeef".data, none, none⟩ (by decide) (by decide)

/-- C10: save_page returns true for a URL not yet stored; for a stored URL
it returns true exactly when the stored content_hash differs from the new
record's (so a record differing only in etag, last_modified, status_code,
headers, is_blocked or error_message yields false); and the orchestrator
increments pages_changed by exactly the flag save_page returns, not by the
change detector's verdict. -/
theorem c10_save_page_semantics :
    (∀ (store : Store) (page : PageRecord),
       alookup store page.url = none → (StorageAdapter.save_page store page).1 = true) ∧
    (∀ (store : Store) (page : PageRecord) (existing : PageRecord),
       alookup store page.url = some existing →
       ((StorageAdapter.save_page store page).1 = true ↔
          existing.content_hash ≠ page.content_hash)) ∧
    (∀ (store : Store) (page : PageRecord) (existing : PageRecord),
       alookup store page.url = some existing →
       existing.content_hash = page.content_hash →
       (StorageAdapter.save_page store page).1 = false) ∧
    (∀ (env : CrawlEnv) (s : CrawlState) (url : PyStr) (depth : Nat) (now : ℚ)
       (status_code : Nat) (headers : List (PyStr × PyStr)) (content : PyStr)
       (error : Option PyStr),
       env.fetchResult url = Except.ok (status_code, headers, content, error) →
       env.failGet url = false → env.failSave url = false →
       (processPage env s url depth now).1.pages_changed =
         s.pages_changed +
           (if (StorageAdapter.save_page s.store
                  (builtPage env url status_code headers content error now)).1
            then 1 else 0)) := by
  refine ⟨?_, ?_, ?_, ?_⟩
  · intro store page hlook
    simp [StorageAdapter.save_page, hlook]
  · intro store page existing hlook
    simp [StorageAdapter.save_page, hlook]
  · intro store page existing hlook he
    simp [StorageAdapter.save_page, hlook, he]
  · intro env s url depth now status_code headers content error hfetch hget hsave
    unfold processPage
    rw [hfetch]
    simp only [hget, Bool.false_eq_true, if_false, hsave]
    by_cases h3 : ((ChangeDetector.has_changed env.normalize_html headers content
        (StorageAdapter.get_page_info
          { s with log := s.log ++ [CrawlEvent.fetched url] }.store url)).1 &&
        !content.isEmpty) = true
    · by_cases h4 : (status_code == 200 && !content.isEmpty) = true
      · simp only [h3, h4, if_true]
      · rw [Bool.not_eq_true] at h4
        simp only [h3, h4, Bool.false_eq_true, if_false, if_true]
    · rw [Bool.not_eq_true] at h3
      by_cases h4 : (status_code == 200 && !content.isEmpty) = true
      · simp only [h3, h4, Bool.false_eq_true, if_false, if_true]
      · rw [Bool.not_eq_true] at h4
        simp only [h3, h4, Bool.false_eq_true, if_false]

/-- C10 witness: a fresh URL inserts with flag true, and re-saving a record
with the same content_hash but different etag returns false. -/
theorem c10_save_page_semantics_witness :
    (StorageAdapter.save_page []
        { url := "u".data, host := "h".data, content_hash := "c".data, etag := none,
          last_modified := none, status_code := 200, headers := [], crawled_at := 0 }).1
      = true ∧
    (StorageAdapter.save_page
        [("u".data,
          { url := "u".data, host := "h".data, content_hash := "c".data, etag := none,
            last_modified := none, status_code := 200, headers := [], crawled_at := 0 })]
        { url := "u".data, host := "h".data, content_hash := "c".data,
          etag := some "e2".data,
          last_modified := none, status_code := 304, headers := [], crawled_at := 1 }).1
      = false := by
  constructor
  · exact c10_save_page_semantics.1 []
      { url := "u".data, host := "h".data, content_hash := "c".data, etag := none,
        last_modified := none, status_code := 200, headers := [], crawled_at := 0 } rfl
  · exact c10_save_page_semantics.2.2.1
      [("u".data,
        { url := "u".data, host := "h".data, content_hash := "c".data, etag := none,
          last_modified := none, status_code := 200, headers := [], crawled_at := 0 })]
      { url := "u".data, host := "h".data, content_hash := "c".data,
        etag := some "e2".data,
        last_modified := none, status_code := 304, headers := [], crawled_at := 1 }
      { url := "u".data, host := "h".data, content_hash := "c".data, etag := none,
        last_modified := none, status_code := 200, headers := [], crawled_at := 0 }
      rfl rfl

/-! The llm.txt manifest generator (manifest.py).  LLMManifest.generate_manifest
is a pure function of the host, the page rows returned by get_host_pages,
the S3 contents (get_from_s3, a lookup function), and the two rendered
timestamps: datetime.utcnow().isoformat() and datetime.isoformat of the
most recent crawled_at. -/

/-- One row of StorageAdapter.get_host_pages (storage.py:252-265): url,
content_hash, status_code, crawled_at, is_blocked, error_message — note
that content_type is NOT selected. -/
structure PageRow where
  url : PyStr
  content_hash : PyStr
  status_code : Nat
  crawled_at : ℚ
  is_blocked : Bool
  error_message : Option PyStr := none

/-- ManifestField (manifest.py:16-21). -/
structure ManifestField where
  key : PyStr
  value : PyStr
  description : Option PyStr := none

def digitChar (n : Nat) : Char := "0123456789".data.getD n '0'

/-- The decimal digits of n, least significant first (fuel-bounded
structural recursion; fuel n always suffices since n/10 shrinks). -/
def natDigitsRevGo : Nat → Nat → List Char
  | 0, n => [digitChar n]
  | fuel+1, n =>
    if n < 10 then [digitChar n]
    else digitChar (n % 10) :: natDigitsRevGo fuel (n / 10)

/-- The decimal digits of n, least significant first. -/
def natDigitsRev (n : Nat) : List Char := natDigitsRevGo n n

/-- Python str(n) for a natural number. -/
def pyStrOfNat (n : Nat) : PyStr := (natDigitsRev n).reverse

/-- The license page paths checked by _detect_license (manifest.py:177-181). -/
def license_urls : List PyStr :=
  ["/license".data, "/license.html".data, "/license.txt".data,
   "/terms".data, "/terms.html".data, "/legal".data,
   "/copyright".data, "/copyright.html".data]

/-- Python substring membership: needle in hay. -/
def strContains (needle : PyStr) : PyStr → Bool
  | [] => needle.isEmpty
  | c :: rest => needle.isPrefixOf (c :: rest) || strContains needle rest

/-- The keyword matching inside _detect_license (manifest.py:192-207),
applied to the lowercased page content. -/
def detectLicenseContent (cl : PyStr) : Option PyStr :=
  if strContains "creative commons".data cl then
    (if strContains "cc0".data cl then some "CC0-1.0".data
     else if strContains "by-sa".data cl then some "CC-BY-SA-4.0".data
     else if strContains "by-nc".data cl then some "CC-BY-NC-4.0".data
     else if strContains "by".data cl then some "CC-BY-4.0".data
     else none)
  else if strContains "mit license".data cl then some "MIT".data
  else if strContains "apache license".data cl then some "Apache-2.0".data
  else if strContains "gnu general public".data cl then some "GPL-3.0".data
  else none

/-- One iteration of the _detect_license page loop (manifest.py:183-207):
a page whose lowercased path is a known license path has its S3 body read
and matched for license keywords. -/
def licenseFromPage (s3get : PyStr → Option PyStr) (host : PyStr) (page : PageRow) :
    Option PyStr :=
  if pyLower (urlPath page.url) ∈ license_urls then
    match s3get ("pages/".data ++ host ++ urlPath page.url) with
    | some content => detectLicenseContent (pyLower content)
    | none => none
  else none

/-- LLMManifest._detect_license (manifest.py:174-209): return the first
license detected on a page whose path is a known license path; pages
without a match are skipped. -/
def _detect_license (s3get : PyStr → Option PyStr) (host : PyStr) :
    List PageRow → Option PyStr
  | [] => none
  | page :: rest =>
    match licenseFromPage s3get host page with
    | some license => some license
    | none => _detect_license s3get host rest

/-- LLMManifest._get_content_types (manifest.py:211-217) on rows of
get_host_pages: those rows carry no content_type key, so the membership
test 'content_type' in page is false for every page and nothing is ever
added — the loop returns the empty set. -/
def _get_content_types (pages : List PageRow) : List PyStr :=
  pages.foldl (fun types _ => types) []

/-- max(p.crawled_at for p in pages) for a nonempty page list
(manifest.py:107). -/
def maxCrawledAt : List PageRow → ℚ
  | [] => 0
  | p :: rest => rest.foldl (fun m q => max m q.crawled_at) p.crawled_at

/-- The last field appended (manifest.py:129-133). -/
def apiField (host : PyStr) : ManifestField :=
  ⟨"API-Endpoint".data,
   "https://api.example.com/tools/llm.fetch_page?host=".data ++ host,
   some "MCP API endpoint for page fetching".data⟩

/-- The Site-Policy field, present when robots.txt is in S3
(manifest.py:78-85). -/
def sitePolicyFields : Option PyStr → List ManifestField
  | some _ =>
      [⟨"Site-Policy".data, "robots.txt".data, some "Site crawling policy".data⟩]
  | none => []

/-- The License field, present when a license was detected
(manifest.py:87-94). -/
def licenseFields : Option PyStr → List ManifestField
  | some license_info =>
      [⟨"License".data, license_info, some "Detected content license".data⟩]
  | none => []

/-- The Content-Types field, present when the content type set is nonempty
(manifest.py:96-103). -/
def contentTypeFields : List PyStr → List ManifestField
  | [] => []
  | content_types =>
      [⟨"Content-Types".data, List.intercalate ", ".data content_types,
        some "Available content types".data⟩]

/-- The Last-Crawled field, present when pages exist (manifest.py:105-112). -/
def lastCrawledFields (isoformat : ℚ → PyStr) : List PageRow → List ManifestField
  | [] => []
  | p :: rest =>
      [⟨"Last-Crawled".data, isoformat (maxCrawledAt (p :: rest)) ++ "Z".data,
        some "Most recent crawl timestamp".data⟩]

/-- The manifest fields before the final API-Endpoint field
(manifest.py:40-127), in order: Version, Site, Generated, Pages,
Accessible-Pages, then Site-Policy when robots.txt is in S3, License when
detected, Content-Types when nonempty (never, see _get_content_types),
Last-Crawled when pages exist, then Crawl-Frequency and Pages-List.
genStamp renders datetime.utcnow().isoformat(), isoformat renders a
crawled_at timestamp. -/
def manifestFieldsInit (s3get : PyStr → Option PyStr) (host : PyStr)
    (pages : List PageRow) (genStamp : PyStr) (isoformat : ℚ → PyStr) :
    List ManifestField :=
  [⟨"Version".data, "1.0".data, some "LLM.txt specification version".data⟩,
   ⟨"Site".data, "https://".data ++ host, some "Base URL of the website".data⟩,
   ⟨"Generated".data, genStamp ++ "Z".data, some "Manifest generation timestamp".data⟩,
   ⟨"Pages".data, pyStrOfNat pages.length, some "Total number of pages crawled".data⟩,
   ⟨"Accessible-Pages".data, pyStrOfNat (pages.filter (fun p => !p.is_blocked)).length,
    some "Number of accessible pages".data⟩] ++
  sitePolicyFields (s3get ("meta/".data ++ host ++ "/robots.txt".data)) ++
  licenseFields (_detect_license s3get host pages) ++
  contentTypeFields (_get_content_types pages) ++
  lastCrawledFields isoformat pages ++
  [⟨"Crawl-Frequency".data, "daily".data, some "How often the site is crawled".data⟩,
   ⟨"Pages-List".data, "https://cdn.example.com/llm/".data ++ host ++ "/pages.json".data,
    some "URL to detailed page listing".data⟩]

/-- All manifest fields in order. -/
def manifestFields (s3get : PyStr → Option PyStr) (host : PyStr)
    (pages : List PageRow) (genStamp : PyStr) (isoformat : ℚ → PyStr) :
    List ManifestField :=
  manifestFieldsInit s3get host pages genStamp isoformat ++ [apiField host]

/-- The lines one field contributes (manifest.py:144-148): an optional
comment line, the key: value line, and a blank line. -/
def fieldLines (f : ManifestField) : List PyStr :=
  (match f.description with
   | some d => ["# ".data ++ d]
   | none => []) ++ [f.key ++ ": ".data ++ f.value] ++ [[]]

/-- manifest_lines before hash insertion (manifest.py:136-148): the two
header comment lines, a blank line, then each field's lines. -/
def manifest_lines (s3get : PyStr → Option PyStr) (host : PyStr)
    (pages : List PageRow) (genStamp : PyStr) (isoformat : ℚ → PyStr) : List PyStr :=
  ["# LLM.txt Manifest".data, "# Generated for ".data ++ host, []] ++
  ((manifestFields s3get host pages genStamp isoformat).map fieldLines).flatten

/-- Everything of manifest_lines except its final blank line. -/
def manifest_pre (s3get : PyStr → Option PyStr) (host : PyStr)
    (pages : List PageRow) (genStamp : PyStr) (isoformat : ℚ → PyStr) : List PyStr :=
  ["# LLM.txt Manifest".data, "# Generated for ".data ++ host, []] ++
  ((manifestFieldsInit s3get host pages genStamp isoformat).map fieldLines).flatten ++
  ["# MCP API endpoint for page fetching".data,
   "API-Endpoint: https://api.example.com/tools/llm.fetch_page?host=".data ++ host]

/-- Python list.insert(-1, x): insert before the last element. -/
def pyInsertMinus1 {α : Type} (l : List α) (x : α) : List α :=
  l.take (l.length - 1) ++ x :: l.drop (l.length - 1)

/-- LLMManifest.generate_manifest (manifest.py:32-172), as the pure text
transformation: join the lines, hash them, insert the Hash line and a
blank line each at position -1, and join again. -/
def generate_manifest (s3get : PyStr → Option PyStr) (host : PyStr)
    (pages : List PageRow) (genStamp : PyStr) (isoformat : ℚ → PyStr) : PyStr :=
  let lines := manifest_lines s3get host pages genStamp isoformat
  let content := List.intercalate ['\n'] lines
  let content_hash := sha256hex content
  let lines2 := pyInsertMinus1 lines ("Hash: ".data ++ content_hash)
  let lines3 := pyInsertMinus1 lines2 []
  List.intercalate ['\n'] lines3

/-- A line of the form Hash: <h>. -/
def isHashLine (l : PyStr) : Bool := "Hash: ".data.isPrefixOf l

/-! Lemmas for C3. -/

theorem isHashLine_cons_ne {c : Char} (t : PyStr) (hc : c ≠ 'H') :
    isHashLine (c :: t) = false := by
  unfold isHashLine
  rw [show "Hash: ".data = 'H' :: "ash: ".data from rfl]
  simp [List.isPrefixOf, hc]
  intro h
  exact absurd h.symm hc

theorem isHashLine_nil : isHashLine [] = false := by decide

theorem isHashLine_hash (h : PyStr) : isHashLine ("Hash: ".data ++ h) = true := by
  unfold isHashLine
  generalize "Hash: ".data = l
  induction l with
  | nil => simp [List.isPrefixOf]
  | cons a as ih => simp [List.isPrefixOf, ih]

theorem isHashLine_hash_cons (h : PyStr) :
    isHashLine ('H' :: 'a' :: 's' :: 'h' :: ':' :: ' ' :: h) = true :=
  isHashLine_hash h

theorem digitChar_mem (n : Nat) : digitChar n ∈ "0123456789".data := by
  unfold digitChar
  rcases Nat.lt_or_ge n 10 with h | h
  · interval_cases n <;> decide
  · rw [List.getD_eq_default]
    · decide
    · simpa using h

theorem natDigitsRevGo_mem :
    ∀ (fuel n : Nat), ∀ c ∈ natDigitsRevGo fuel n, c ∈ "0123456789".data := by
  intro fuel
  induction fuel with
  | zero =>
    intro n c hc
    simp only [natDigitsRevGo, List.mem_singleton] at hc
    subst hc
    exact digitChar_mem n
  | succ fuel ih =>
    intro n c hc
    rw [natDigitsRevGo] at hc
    by_cases h : n < 10
    · rw [if_pos h] at hc
      simp only [List.mem_singleton] at hc
      subst hc
      exact digitChar_mem n
    · rw [if_neg h] at hc
      rcases List.mem_cons.mp hc with rfl | hc
      · exact digitChar_mem _
      · exact ih (n / 10) c hc

theorem natDigitsRev_mem (n : Nat) : ∀ c ∈ natDigitsRev n, c ∈ "0123456789".data :=
  natDigitsRevGo_mem n n

theorem pyStrOfNat_ne_newline (n : Nat) : '\n' ∉ pyStrOfNat n := by
  unfold pyStrOfNat
  intro h
  rw [List.mem_reverse] at h
  have hmem := natDigitsRev_mem n _ h
  revert hmem
  decide

theorem hexDigit_mem (n : Nat) : hexDigit n ∈ "0123456789abcdef".data := by
  unfold hexDigit
  rcases Nat.lt_or_ge n 16 with h | h
  · interval_cases n <;> decide
  · rw [List.getD_eq_default]
    · decide
    · simpa using h

theorem sha256hex_ne_newline (s : PyStr) : '\n' ∉ sha256hex s := by
  unfold sha256hex toHexStr
  intro h
  rw [List.mem_flatten] at h
  obtain ⟨l, hl, hcl⟩ := h
  rw [List.mem_map] at hl
  obtain ⟨b, _, rfl⟩ := hl
  have hmem : ∀ m : Nat, hexDigit m ≠ '\n' := by
    intro m heq
    have hd := hexDigit_mem m
    rw [heq] at hd
    revert hd
    decide
  unfold byteHex at hcl
  rcases List.mem_cons.mp hcl with h1 | h1
  · exact hmem _ h1.symm
  · rcases List.mem_cons.mp h1 with h2 | h2
    · exact hmem _ h2.symm
    · simp at h2

theorem detectLicenseContent_ne_newline {cl lic : PyStr}
    (h : detectLicenseContent cl = some lic) : '\n' ∉ lic := by
  unfold detectLicenseContent at h
  split_ifs at h <;>
    (injection h with h2
     subst h2
     decide)

theorem licenseFromPage_ne_newline {s3get : PyStr → Option PyStr} {host : PyStr}
    {page : PageRow} {lic : PyStr}
    (h : licenseFromPage s3get host page = some lic) : '\n' ∉ lic := by
  unfold licenseFromPage at h
  split_ifs at h
  · revert h
    cases s3get ("pages/".data ++ host ++ urlPath page.url) with
    | some content =>
      intro h
      exact detectLicenseContent_ne_newline h
    | none =>
      intro h
      exact Option.noConfusion h

theorem detect_license_ne_newline {s3get : PyStr → Option PyStr} {host : PyStr} :
    ∀ {pages : List PageRow} {lic : PyStr},
      _detect_license s3get host pages = some lic → '\n' ∉ lic := by
  intro pages
  induction pages with
  | nil =>
    intro lic h
    simp [_detect_license] at h
  | cons p rest ih =>
    intro lic h
    unfold _detect_license at h
    revert h
    cases hlp : licenseFromPage s3get host p with
    | some l =>
      intro h
      injection h with h2
      subst h2
      exact licenseFromPage_ne_newline hlp
    | none =>
      intro h
      exact ih h

theorem foldl_const_acc {α β : Type} (l : List α) (acc : β) :
    l.foldl (fun t _ => t) acc = acc := by
  induction l generalizing acc with
  | nil => rfl
  | cons a rest ih => exact ih acc

theorem get_content_types_eq_nil (pages : List PageRow) :
    _get_content_types pages = [] :=
  foldl_const_acc pages []

theorem pyInsertMinus1_concat {α : Type} (l : List α) (a x : α) :
    pyInsertMinus1 (l ++ [a]) x = l ++ [x, a] := by
  unfold pyInsertMinus1
  have hlen : (l ++ [a]).length - 1 = l.length := by simp
  rw [hlen, List.take_left, List.drop_left]

theorem manifest_lines_eq_pre (s3get : PyStr → Option PyStr) (host : PyStr)
    (pages : List PageRow) (genStamp : PyStr) (isoformat : ℚ → PyStr) :
    manifest_lines s3get host pages genStamp isoformat =
      manifest_pre s3get host pages genStamp isoformat ++ [[]] := by
  unfold manifest_lines manifest_pre manifestFields
  simp [fieldLines, apiField, List.map_append, List.flatten_append, List.append_assoc]

theorem generate_manifest_eq (s3get : PyStr → Option PyStr) (host : PyStr)
    (pages : List PageRow) (genStamp : PyStr) (isoformat : ℚ → PyStr) :
    generate_manifest s3get host pages genStamp isoformat =
      List.intercalate ['\n']
        (manifest_pre s3get host pages genStamp isoformat ++
         ["Hash: ".data ++ sha256hex (List.intercalate ['\n']
             (manifest_pre s3get host pages genStamp isoformat ++ [[]])), [], []]) := by
  unfold generate_manifest
  rw [manifest_lines_eq_pre]
  generalize manifest_pre s3get host pages genStamp isoformat = pre
  simp only [pyInsertMinus1_concat]
  rw [show pre ++ ["Hash: ".data ++ sha256hex (['\n'].intercalate (pre ++ [[]])), []] =
      (pre ++ ["Hash: ".data ++ sha256hex (['\n'].intercalate (pre ++ [[]]))]) ++ [[]] by
    simp]
  rw [pyInsertMinus1_concat]
  simp

/-- A well-formed manifest field: its key starts with a character other
than H (so its line is not a Hash line), and no newline can leak into the
generated line. -/
def FieldOk (f : ManifestField) : Prop :=
  (∃ c t, f.key = c :: t ∧ c ≠ 'H') ∧
  '\n' ∉ f.key ∧ '\n' ∉ f.value ∧
  (∀ d, f.description = some d → '\n' ∉ d)

theorem not_mem_append_of {α : Type} {a : α} {l1 l2 : List α}
    (h1 : a ∉ l1) (h2 : a ∉ l2) : a ∉ l1 ++ l2 := by
  intro h
  rcases List.mem_append.mp h with h | h
  · exact h1 h
  · exact h2 h

theorem fieldOk_of (key value desc : PyStr) (c : Char) (t : PyStr)
    (hk : key = c :: t) (hc : c ≠ 'H') (hknl : '\n' ∉ key) (hvnl : '\n' ∉ value)
    (hdnl : '\n' ∉ desc) : FieldOk ⟨key, value, some desc⟩ := by
  refine ⟨⟨c, t, hk, hc⟩, hknl, hvnl, ?_⟩
  intro d hd
  injection hd with hd2
  subst hd2
  exact hdnl

theorem sitePolicyFields_ok (o : Option PyStr) :
    ∀ f ∈ sitePolicyFields o, FieldOk f := by
  cases o with
  | none =>
    intro f hf
    simp [sitePolicyFields] at hf
  | some v =>
    intro f hf
    simp only [sitePolicyFields, List.mem_singleton] at hf
    subst hf
    exact fieldOk_of _ _ _ 'S' "ite-Policy".data rfl (by decide) (by decide)
      (by decide) (by decide)

theorem licenseFields_ok (o : Option PyStr) (ho : ∀ lic, o = some lic → '\n' ∉ lic) :
    ∀ f ∈ licenseFields o, FieldOk f := by
  cases o with
  | none =>
    intro f hf
    simp [licenseFields] at hf
  | some lic =>
    intro f hf
    simp only [licenseFields, List.mem_singleton] at hf
    subst hf
    exact fieldOk_of _ _ _ 'L' "icense".data rfl (by decide) (by decide)
      (ho lic rfl) (by decide)

theorem lastCrawledFields_ok (isoformat : ℚ → PyStr) (pages : List PageRow)
    (hiso : ∀ t, '\n' ∉ isoformat t) :
    ∀ f ∈ lastCrawledFields isoformat pages, FieldOk f := by
  cases pages with
  | nil =>
    intro f hf
    simp [lastCrawledFields] at hf
  | cons p rest =>
    intro f hf
    simp only [lastCrawledFields, List.mem_singleton] at hf
    subst hf
    exact fieldOk_of _ _ _ 'L' "ast-Crawled".data rfl (by decide) (by decide)
      (not_mem_append_of (hiso _) (by decide)) (by decide)

theorem manifestFieldsInit_ok (s3get : PyStr → Option PyStr) (host : PyStr)
    (pages : List PageRow) (genStamp : PyStr) (isoformat : ℚ → PyStr)
    (hhost : '\n' ∉ host) (hgen : '\n' ∉ genStamp) (hiso : ∀ t, '\n' ∉ isoformat t) :
    ∀ f ∈ manifestFieldsInit s3get host pages genStamp isoformat, FieldOk f := by
  intro f hf
  unfold manifestFieldsInit at hf
  simp only [List.append_assoc, List.mem_append, List.mem_cons, List.not_mem_nil,
    or_false] at hf
  rcases hf with (rfl | rfl | rfl | rfl | rfl) | hf | hf | hf | hf | rfl | rfl
  · exact fieldOk_of _ _ _ 'V' "ersion".data rfl (by decide) (by decide) (by decide)
      (by decide)
  · exact fieldOk_of _ _ _ 'S' "ite".data rfl (by decide) (by decide)
      (not_mem_append_of (by decide) hhost) (by decide)
  · exact fieldOk_of _ _ _ 'G' "enerated".data rfl (by decide) (by decide)
      (not_mem_append_of hgen (by decide)) (by decide)
  · exact fieldOk_of _ _ _ 'P' "ages".data rfl (by decide) (by decide)
      (pyStrOfNat_ne_newline _) (by decide)
  · exact fieldOk_of _ _ _ 'A' "ccessible-Pages".data rfl (by decide) (by decide)
      (pyStrOfNat_ne_newline _) (by decide)
  · exact sitePolicyFields_ok _ f hf
  · exact licenseFields_ok _ (fun lic hl => detect_license_ne_newline hl) f hf
  · rw [get_content_types_eq_nil] at hf
    simp [contentTypeFields] at hf
  · exact lastCrawledFields_ok isoformat pages hiso f hf
  · exact fieldOk_of _ _ _ 'C' "rawl-Frequency".data rfl (by decide) (by decide)
      (by decide) (by decide)
  · exact fieldOk_of _ _ _ 'P' "ages-List".data rfl (by decide) (by decide)
      (not_mem_append_of (by decide) (not_mem_append_of hhost (by decide))) (by decide)

theorem fieldLines_ok (f : ManifestField) (hf : FieldOk f) :
    ∀ l ∈ fieldLines f, isHashLine l = false ∧ '\n' ∉ l := by
  obtain ⟨⟨c, t, hk, hc⟩, hknl, hvnl, hdnl⟩ := hf
  intro l hl
  unfold fieldLines at hl
  rcases List.mem_append.mp hl with hl | hl
  · rcases List.mem_append.mp hl with hl | hl
    · revert hl
      cases hd : f.description with
      | none =>
        intro hl
        simp at hl
      | some d =>
        intro hl
        simp only [List.mem_singleton] at hl
        subst hl
        constructor
        · exact isHashLine_cons_ne _ (by decide)
        · exact not_mem_append_of (by decide) (hdnl d hd)
    · simp only [List.mem_singleton] at hl
      subst hl
      constructor
      · rw [hk, List.cons_append, List.cons_append]
        exact isHashLine_cons_ne _ hc
      · exact not_mem_append_of (not_mem_append_of hknl (by decide)) hvnl
  · simp only [List.mem_singleton] at hl
    subst hl
    exact ⟨isHashLine_nil, by decide⟩

theorem manifest_pre_ok (s3get : PyStr → Option PyStr) (host : PyStr)
    (pages : List PageRow) (genStamp : PyStr) (isoformat : ℚ → PyStr)
    (hhost : '\n' ∉ host) (hgen : '\n' ∉ genStamp) (hiso : ∀ t, '\n' ∉ isoformat t) :
    ∀ l ∈ manifest_pre s3get host pages genStamp isoformat,
      isHashLine l = false ∧ '\n' ∉ l := by
  intro l hl
  unfold manifest_pre at hl
  rcases List.mem_append.mp hl with hl | hl
  · rcases List.mem_append.mp hl with hl | hl
    · rcases List.mem_cons.mp hl with rfl | hl
      · exact ⟨isHashLine_cons_ne _ (by decide), by decide⟩
      · rcases List.mem_cons.mp hl with rfl | hl
        · exact ⟨isHashLine_cons_ne _ (by decide),
            not_mem_append_of (by decide) hhost⟩
        · rcases List.mem_cons.mp hl with rfl | hl
          · exact ⟨isHashLine_nil, by decide⟩
          · simp at hl
    · rw [List.mem_flatten] at hl
      obtain ⟨ls, hls, hlls⟩ := hl
      rw [List.mem_map] at hls
      obtain ⟨fld, hfld, rfl⟩ := hls
      exact fieldLines_ok fld
        (manifestFieldsInit_ok s3get host pages genStamp isoformat hhost hgen hiso
          fld hfld) l hlls
  · rcases List.mem_cons.mp hl with rfl | hl
    · exact ⟨isHashLine_cons_ne _ (by decide), by decide⟩
    · rcases List.mem_cons.mp hl with rfl | hl
      · constructor
        · exact isHashLine_cons_ne _ (by decide)
        · exact not_mem_append_of (by decide) hhost
      · simp at hl

/-- C3 (amended): the manifest text contains exactly one Hash line, and its
value is the sha256 hex digest of the document with the Hash line AND the
blank line inserted after it removed — equivalently, of the manifest text
as it was before the two insertions (the original lines, ending in one
blank line).  The split of the generated text into lines is exactly the
pre-hash lines followed by the Hash line and two blank lines. -/
theorem c3_manifest_hash (s3get : PyStr → Option PyStr) (host : PyStr)
    (pages : List PageRow) (genStamp : PyStr) (isoformat : ℚ → PyStr)
    (hhost : '\n' ∉ host) (hgen : '\n' ∉ genStamp) (hiso : ∀ t, '\n' ∉ isoformat t) :
    (generate_manifest s3get host pages genStamp isoformat).splitOn '\n' =
      manifest_pre s3get host pages genStamp isoformat ++
        ["Hash: ".data ++ sha256hex (List.intercalate ['\n']
            (manifest_pre s3get host pages genStamp isoformat ++ [[]])), [], []] ∧
    ((generate_manifest s3get host pages genStamp isoformat).splitOn '\n').countP
        isHashLine = 1 ∧
    (∀ l ∈ manifest_pre s3get host pages genStamp isoformat, isHashLine l = false) := by
  have hpre := manifest_pre_ok s3get host pages genStamp isoformat hhost hgen hiso
  have hsplit : (generate_manifest s3get host pages genStamp isoformat).splitOn '\n' =
      manifest_pre s3get host pages genStamp isoformat ++
        ["Hash: ".data ++ sha256hex (List.intercalate ['\n']
            (manifest_pre s3get host pages genStamp isoformat ++ [[]])), [], []] := by
    rw [generate_manifest_eq]
    apply List.splitOn_intercalate
    · intro l hl
      rcases List.mem_append.mp hl with hl | hl
      · exact (hpre l hl).2
      · rcases List.mem_cons.mp hl with rfl | hl
        · exact not_mem_append_of (by decide) (sha256hex_ne_newline _)
        · rcases List.mem_cons.mp hl with rfl | hl
          · decide
          · rcases List.mem_cons.mp hl with rfl | hl
            · decide
            · simp at hl
    · simp
  refine ⟨hsplit, ?_, fun l hl => (hpre l hl).1⟩
  rw [hsplit, List.countP_append]
  have h0 : (manifest_pre s3get host pages genStamp isoformat).countP isHashLine = 0 := by
    rw [List.countP_eq_zero]
    intro l hl
    simp [(hpre l hl).1]
  rw [h0]
  simp [List.countP_cons, isHashLine_hash_cons, isHashLine_nil]

/-- C3 witness: the amended hash property at a concrete host with no pages
and an empty content store. -/
theorem c3_manifest_hash_witness :
    ((generate_manifest (fun _ => none) "a".data [] "2024-01-01T00:00:00".data
        (fun _ => [])).splitOn '\n').countP isHashLine = 1 :=
  (c3_manifest_hash (fun _ => none) "a".data [] "2024-01-01T00:00:00".data (fun _ => [])
    (by decide) (by decide) (fun t => by simp)).2.1

set_option maxHeartbeats 4000000 in
/-- C3 counterexample to the claim as stated: in the concrete manifest for
host "a" with no pages, the unique Hash line's value is NOT the sha256 of
the document with that Hash line removed (it is the sha256 of the document
with the Hash line and the following blank line removed: the insertion at
list index -1 adds an extra blank line that was not part of the hashed
content). -/
theorem c3_counterexample :
    (((generate_manifest (fun _ => none) "a".data [] "2024-01-01T00:00:00".data
        (fun _ => [])).splitOn '\n').countP isHashLine = 1) ∧
    ((((generate_manifest (fun _ => none) "a".data [] "2024-01-01T00:00:00".data
        (fun _ => [])).splitOn '\n').find? isHashLine).map (fun l => l.drop 6) ≠
      some (sha256hex (List.intercalate ['\n']
        (((generate_manifest (fun _ => none) "a".data [] "2024-01-01T00:00:00".data
            (fun _ => [])).splitOn '\n').eraseP isHashLine)))) := by
  constructor
  · decide
  · decide

end UrlToLlm
